import Mathlib

/-!
Verification of the JustTuner pitch-detection core.

The definitions below are a shallow embedding of the JavaScript source:

* `src/yin-algorithm.js` — the YIN pitch detector (`detectPitch`,
  `computeCMNDF`, `computeDF`, `computeACF`, `findBestTau`,
  `findGlobalMinIndex`, `refineTau`);
* `src/app.js` — the per-frame smoothing step of `detectionLoop`
  together with the helper `average`.

Audio samples and all intermediate values are modelled as rationals.
JavaScript produces non-finite numbers (`NaN`, `Infinity`) exactly at the
unguarded division of `refineTau` and propagates them through the final
division and range check, so values on that path are modelled by `JsVal`,
which adjoins `nan`, `posInf` and `negInf` to the rationals.  Reads of a
`Float32Array` outside its bounds yield `undefined` in JavaScript and any
`<` comparison involving `undefined` is `false` (it goes through `NaN`);
in-bounds comparisons never involve `NaN` here because every stored CMNDF
value is a real number.  Reads are therefore modelled as `Option ℚ`
(`none` = `undefined`) compared by `jsLtO`.

JavaScript `while`/`for` loops are written as structural recursion on an
explicit iteration-count argument (`fuel`).  In every use the count is at
least the number of iterations the JavaScript loop can perform, so the
embedded function computes exactly what the loop computes; the count
exists only to make the recursion structural (hence evaluable by `decide`).
-/

namespace JustTuner

/-- Values a JavaScript number variable takes on the paths we model:
a real (rational) number, or one of the non-finite numbers produced by
dividing by zero. `negInf` also stands for `-0` after a further division,
which compares like `0`; we only ever compare these values against
positive constants, where `-0` and `0` agree. -/
inductive JsVal where
  | num (q : ℚ)
  | posInf
  | negInf
  | nan
deriving DecidableEq, Repr

/-- Whether a `JsVal` is a finite number. -/
def JsVal.isFiniteNum : JsVal → Bool
  | .num _ => true
  | _ => false

/-- JavaScript `<` on possibly-`undefined` array reads: `undefined`
converts to `NaN` and every comparison with `NaN` is `false`. -/
def jsLtO : Option ℚ → Option ℚ → Bool
  | some a, some b => a < b
  | _, _ => false

/-- JavaScript `v < q` for a `JsVal` `v` and a real constant `q`. -/
def jsLtQ : JsVal → ℚ → Bool
  | .num a, q => a < q
  | .posInf, _ => false
  | .negInf, _ => true
  | .nan, _ => false

/-- JavaScript `v > q` for a `JsVal` `v` and a real constant `q`. -/
def jsGtQ : JsVal → ℚ → Bool
  | .num a, q => a > q
  | .posInf, _ => true
  | .negInf, _ => false
  | .nan, _ => false

/-- JavaScript division `sr / v` of a finite non-negative numerator `sr`
(the sample rate) by a `JsVal`. `sr / 0 = +Infinity` for `sr > 0`
(`0 / 0 = NaN`), `sr / ±Infinity = ±0` (modelled as `0`),
`sr / NaN = NaN`. -/
def jsDiv (sr : ℚ) : JsVal → JsVal
  | .num q => if q = 0 then (if sr = 0 then .nan else .posInf) else .num (sr / q)
  | .posInf => .num 0
  | .negInf => .num 0
  | .nan => .nan

-- ---------------------------------------------------------------------------
-- yin-algorithm.js
-- ---------------------------------------------------------------------------

/-- `const MIN_FREQUENCY = 27`. -/
def MIN_FREQUENCY : ℚ := 27

/-- `const MAX_FREQUENCY = 5000`. -/
def MAX_FREQUENCY : ℚ := 5000

/-- `const THRESHOLD = 0.1`. -/
def THRESHOLD : ℚ := 1 / 10

/-- `computeACF(audioSamples, tau)`: autocorrelation at lag `tau`.
Returns `0` when `tau` is outside `0 .. length - 1`
(in particular for an empty array), otherwise
`Σ_{x < length - tau} a[x] * a[x + tau]`. -/
def computeACF (audioSamples : List ℚ) (tau : ℕ) : ℚ :=
  if audioSamples.length < tau + 1 then 0
  else ∑ x ∈ Finset.range (audioSamples.length - tau),
    audioSamples.getD x 0 * audioSamples.getD (x + tau) 0

/-- `computeDF(audioSamples, tau)`: difference function at lag `tau`,
`r0 + rShift - 2 * rTau` where `rShift` is the zero-lag autocorrelation of
the suffix starting at `tau` (`audioSamples.subarray(tau)`). -/
def computeDF (audioSamples : List ℚ) (tau : ℕ) : ℚ :=
  computeACF audioSamples 0 + computeACF (audioSamples.drop tau) 0
    - 2 * computeACF audioSamples tau

/-- The entries `cmndf[start], cmndf[start+1], …` produced by the CMNDF
loop of `computeCMNDF`, given the cumulative difference-function sum
accumulated so far.  `n` is the number of remaining loop iterations
(`maxTau - start + 1` at the outer call). -/
def cmndfFrom (audioSamples : List ℚ) : ℕ → ℕ → ℚ → List ℚ
  | 0, _, _ => []
  | n + 1, tau, cumulativeDF =>
    let d := computeDF audioSamples tau
    let c := cumulativeDF + d
    (if c = 0 then 1 else d * tau / c) :: cmndfFrom audioSamples n (tau + 1) c

/-- `computeCMNDF(audioSamples, tauMin, tauMax)`.
`startTau = max(1, tauMin)`, `maxTau = min(tauMax, length - 1)`, and the
returned array has `maxTau + 1` entries.  When `startTau > maxTau` the
JavaScript function returns the freshly allocated (all-zero) array before
writing `cmndf[0] = 1`; otherwise `cmndf[0] = 1` and the loop fills
`cmndf[1] .. cmndf[maxTau]`.  For an empty input the JavaScript `maxTau`
is `-1` and the returned array is empty. -/
def computeCMNDF (audioSamples : List ℚ) (tauMin tauMax : ℕ) : List ℚ :=
  if audioSamples.length = 0 then []
  else
    let startTau := max 1 tauMin
    let maxTau := min tauMax (audioSamples.length - 1)
    if maxTau < startTau then List.replicate (maxTau + 1) 0
    else 1 :: cmndfFrom audioSamples maxTau 1 0

/-- The `while` loop of `findBestTau`: starting from `bestTauCandidate`,
advance while `bestTauCandidate + 1 < tauMax` and the next CMNDF value is
strictly smaller.  `fuel` bounds the iterations; every call passes
`fuel = tauMax`, which exceeds the at most `tauMax - 1 - b` iterations the
JavaScript loop can perform, so the results agree. -/
def valleyDescent (cmndf : List ℚ) (tauMax : ℕ) : ℕ → ℕ → ℕ
  | 0, b => b
  | fuel + 1, b =>
    if b + 1 < tauMax then
      if jsLtO cmndf[b + 1]? cmndf[b]? then valleyDescent cmndf tauMax fuel (b + 1)
      else b
    else b

/-- The `for` loop of `findGlobalMinIndex`.  `fuel` is the exact remaining
iteration count `end - i`.  `minValue` is `array[minIndex]`, possibly
`undefined` when `minIndex` is out of bounds (as in the JavaScript). -/
def findGlobalMinAux (array : List ℚ) : ℕ → ℕ → Option ℚ → ℕ → ℕ
  | 0, _, _, minIndex => minIndex
  | fuel + 1, i, minValue, minIndex =>
    if jsLtO array[i]? minValue then findGlobalMinAux array fuel (i + 1) array[i]? i
    else findGlobalMinAux array fuel (i + 1) minValue minIndex

/-- `findGlobalMinIndex(array, start, end)`: linear search over
`[start, end)` starting from `minValue = array[start]`. -/
def findGlobalMinIndex (array : List ℚ) (start endIdx : ℕ) : ℕ :=
  findGlobalMinAux array (endIdx - (start + 1)) (start + 1) array[start]? start

/-- The `for` loop of `findBestTau`, scanning `tau` upward.  `fuel` is the
exact remaining iteration count `tauMax - tau`; when it reaches `0` the
loop is over and the global-minimum fallback runs. -/
def findBestTauAux (cmndf : List ℚ) (threshold : ℚ) (tauMin tauMax : ℕ) :
    ℕ → ℕ → ℕ
  | 0, _ => findGlobalMinIndex cmndf tauMin tauMax
  | fuel + 1, tau =>
    if jsLtO cmndf[tau]? (some threshold) then valleyDescent cmndf tauMax tauMax tau
    else findBestTauAux cmndf threshold tauMin tauMax fuel (tau + 1)

/-- `findBestTau(cmndf, threshold, tauMin, tauMax)`. -/
def findBestTau (cmndf : List ℚ) (threshold : ℚ) (tauMin tauMax : ℕ) : ℕ :=
  findBestTauAux cmndf threshold tauMin tauMax (tauMax - tauMin) tauMin

/-- `refineTau(cmndf, tau)`: parabolic interpolation.  At a boundary
(`tau < 1` or `tau + 1 ≥ cmndf.length`) the integer lag is returned.
Otherwise the numerator and denominator are real numbers read in bounds;
when the denominator is `0` the JavaScript division produces `±Infinity`
(sign of the numerator) or `NaN` (numerator also `0`), and `tau + 0.5 * x`
maps those to themselves. -/
def refineTau (cmndf : List ℚ) (tau : ℕ) : JsVal :=
  if tau < 1 ∨ cmndf.length ≤ tau + 1 then .num tau
  else
    let numerator := cmndf.getD (tau - 1) 0 - cmndf.getD (tau + 1) 0
    let denominator := cmndf.getD (tau - 1) 0 - 2 * cmndf.getD tau 0 + cmndf.getD (tau + 1) 0
    if denominator = 0 then
      if numerator = 0 then .nan
      else if 0 < numerator then .posInf
      else .negInf
    else .num (tau + numerator / denominator / 2)

/-- `tauMin = Math.floor(sampleRate / MAX_FREQUENCY)` in `detectPitch`. -/
def detectTauMin (sampleRate : ℕ) : ℕ := sampleRate / 5000

/-- `tauMax = Math.floor(sampleRate / MIN_FREQUENCY)` in `detectPitch`. -/
def detectTauMax (sampleRate : ℕ) : ℕ := sampleRate / 27

/-- The CMNDF curve computed by `detectPitch`. -/
def detectCMNDF (waveform : List ℚ) (sampleRate : ℕ) : List ℚ :=
  computeCMNDF waveform (detectTauMin sampleRate) (detectTauMax sampleRate)

/-- The lag chosen by the threshold search in `detectPitch`. -/
def detectTau (waveform : List ℚ) (sampleRate : ℕ) : ℕ :=
  findBestTau (detectCMNDF waveform sampleRate) THRESHOLD
    (detectTauMin sampleRate) (detectTauMax sampleRate)

/-- `confidence = cmndf[tau]` in `detectPitch`; `none` when the read is
out of bounds (JavaScript `undefined`). -/
def detectConfidence (waveform : List ℚ) (sampleRate : ℕ) : Option ℚ :=
  (detectCMNDF waveform sampleRate)[detectTau waveform sampleRate]?

/-- `detectPitch(waveform, sampleRate)`.  Note that `computeCMNDF` always
returns an array and a JavaScript typed array is always truthy, so the
source's `if (!cmndf) return null` check never fires and is not a branch
of the embedding. -/
def detectPitch (waveform : List ℚ) (sampleRate : ℕ) :
    Option (JsVal × Option ℚ) :=
  if waveform.length = 0 then none
  else
    let confidence := detectConfidence waveform sampleRate
    let refinedTau := refineTau (detectCMNDF waveform sampleRate) (detectTau waveform sampleRate)
    let frequency := jsDiv (sampleRate : ℚ) refinedTau
    if jsLtQ frequency MIN_FREQUENCY || jsGtQ frequency MAX_FREQUENCY then none
    else some (frequency, confidence)

-- ---------------------------------------------------------------------------
-- app.js (smoothing step of detectionLoop)
-- ---------------------------------------------------------------------------

/-- `const SMOOTHING_FRAMES = 3`. -/
def SMOOTHING_FRAMES : ℕ := 3

/-- `const CONFIDENCE_THRESHOLD = 0.15`. -/
def CONFIDENCE_THRESHOLD : ℚ := 3 / 20

/-- `average(array)` from `app.js`: `0` for an empty array, otherwise the
sum of the entries divided by their count. -/
def average (array : List ℚ) : ℚ :=
  if array.length = 0 then 0 else array.sum / array.length

/-- The smoothing step of `detectionLoop` in `app.js`, as a function of
the current `frequencyHistory` and the detection (frequency and
confidence): if there is a detection passing the confidence gate, its
frequency is pushed, the history is trimmed with `shift()` (drop the
first element) when it exceeds `SMOOTHING_FRAMES`, and the averaged
frequency is emitted; otherwise the history is cleared and no frequency
is emitted (the frame's `note` stays `null`). -/
def smootherUpdate (frequencyHistory : List ℚ) (detection : Option (ℚ × ℚ)) :
    List ℚ × Option ℚ :=
  match detection with
  | some (freq, conf) =>
    if conf < CONFIDENCE_THRESHOLD then
      let pushed := frequencyHistory ++ [freq]
      let trimmed := if SMOOTHING_FRAMES < pushed.length then pushed.drop 1 else pushed
      (trimmed, some (average trimmed))
    else ([], none)
  | none => ([], none)

-- ---------------------------------------------------------------------------
-- Read instrumentation: the array indices the search and refinement code
-- actually reads, mirroring the JavaScript expression evaluation order.
-- ---------------------------------------------------------------------------

/-- The indices of `cmndf` read by the `while` loop of `findBestTau`:
an iteration whose guard `bestTauCandidate + 1 < tauMax` holds reads
`cmndf[b + 1]` and `cmndf[b]`; when the guard fails the `&&` shortcuts
and nothing is read. -/
def valleyDescentReads (cmndf : List ℚ) (tauMax : ℕ) : ℕ → ℕ → List ℕ
  | 0, _ => []
  | fuel + 1, b =>
    if b + 1 < tauMax then
      (b + 1) :: b ::
        (if jsLtO cmndf[b + 1]? cmndf[b]? then valleyDescentReads cmndf tauMax fuel (b + 1)
         else [])
    else []

/-- The indices read by `findGlobalMinIndex(array, start, end)`:
`array[start]` for the initial `minValue`, then `array[i]` for each `i`
in `[start + 1, end)`. -/
def findGlobalMinReads (start endIdx : ℕ) : List ℕ :=
  start :: List.range' (start + 1) (endIdx - (start + 1))

/-- The indices of `cmndf` read by the scanning loop of `findBestTau`:
each iteration reads `cmndf[tau]`, a hit enters the valley descent, and
loop exhaustion runs the global-minimum fallback. -/
def findBestTauAuxReads (cmndf : List ℚ) (threshold : ℚ) (tauMin tauMax : ℕ) :
    ℕ → ℕ → List ℕ
  | 0, _ => findGlobalMinReads tauMin tauMax
  | fuel + 1, tau =>
    if jsLtO cmndf[tau]? (some threshold) then
      tau :: valleyDescentReads cmndf tauMax tauMax tau
    else tau :: findBestTauAuxReads cmndf threshold tauMin tauMax fuel (tau + 1)

/-- All indices of `cmndf` read by `findBestTau`. -/
def findBestTauReads (cmndf : List ℚ) (threshold : ℚ) (tauMin tauMax : ℕ) : List ℕ :=
  findBestTauAuxReads cmndf threshold tauMin tauMax (tauMax - tauMin) tauMin

/-- The indices of `cmndf` read by `refineTau` past its boundary check, in
evaluation order (`numerator` reads `tau - 1` and `tau + 1`, `denominator`
reads `tau - 1`, `tau` and `tau + 1`). -/
def refineTauReads (cmndf : List ℚ) (tau : ℕ) : List ℕ :=
  if tau < 1 ∨ cmndf.length ≤ tau + 1 then []
  else [tau - 1, tau + 1, tau - 1, tau, tau + 1]

-- ---------------------------------------------------------------------------
-- Specification-side definitions (from the claims' words, for comparison
-- with the source functions above).
-- ---------------------------------------------------------------------------

/-- Modelled from the spec: the squared difference between the signal and
its lag-`tau` shifted copy, summed over the valid overlap region. -/
def sqDiffSum (a : List ℚ) (tau : ℕ) : ℚ :=
  ∑ i ∈ Finset.range (a.length - tau), (a.getD i 0 - a.getD (i + tau) 0) ^ 2

/-- The energy of the final `tau` samples of the frame (the term by which
the source difference function exceeds the overlap squared difference). -/
def tailEnergy (a : List ℚ) (tau : ℕ) : ℚ :=
  ∑ i ∈ Finset.range tau, a.getD (a.length - tau + i) 0 ^ 2

/-- `r` is the bottom of the strictly decreasing CMNDF run that starts at
`t0`, within the search range: every step from `t0` up to `r` strictly
decreases and stays left of `tauMax`, and past `r` the curve stops
decreasing (unless the range ends there). -/
def valleyBottomAt (cmndf : List ℚ) (tauMax t0 r : ℕ) : Prop :=
  t0 ≤ r ∧ r < tauMax ∧
  (∀ k, t0 ≤ k → k < r → k + 1 < tauMax ∧ cmndf.getD (k + 1) 0 < cmndf.getD k 0) ∧
  (r + 1 < tauMax → ¬ cmndf.getD (r + 1) 0 < cmndf.getD r 0)

/-- `r` is the first index of `[tauMin, tauMax)` at which `cmndf` attains
its minimum over that range. -/
def firstArgminOn (cmndf : List ℚ) (tauMin tauMax r : ℕ) : Prop :=
  tauMin ≤ r ∧ r < tauMax ∧
  (∀ i, tauMin ≤ i → i < tauMax → cmndf.getD r 0 ≤ cmndf.getD i 0) ∧
  (∀ i, tauMin ≤ i → i < r → cmndf.getD r 0 < cmndf.getD i 0)

-- ---------------------------------------------------------------------------
-- Basic lemmas about the JavaScript comparison/read semantics
-- ---------------------------------------------------------------------------

theorem jsLtO_none_left (x : Option ℚ) : jsLtO none x = false := by
  cases x <;> rfl

theorem jsLtO_none_right (x : Option ℚ) : jsLtO x none = false := by
  cases x <;> rfl

theorem jsLtO_some_some (a b : ℚ) : jsLtO (some a) (some b) = decide (a < b) := rfl

theorem getElem?_of_len_le {α : Type} (l : List α) (i : ℕ) (h : l.length ≤ i) :
    l[i]? = none :=
  List.getElem?_eq_none h

theorem getElem?_eq_some_getD (l : List ℚ) (i : ℕ) (h : i < l.length) :
    l[i]? = some (l.getD i 0) := by
  rw [List.getElem?_eq_getElem h, List.getD_eq_getElem l 0 h]

/-- Scanning `findBestTau` past every in-bounds index without a threshold
hit falls through to the global-minimum fallback (out-of-bounds reads are
`undefined` and never satisfy `<`). -/
theorem findBestTauAux_no_hit (cmndf : List ℚ) (threshold : ℚ) (tauMin tauMax : ℕ)
    (fuel : ℕ) :
    ∀ tau, (∀ s, tau ≤ s → s < cmndf.length → jsLtO cmndf[s]? (some threshold) = false) →
      findBestTauAux cmndf threshold tauMin tauMax fuel tau =
        findGlobalMinIndex cmndf tauMin tauMax := by
  induction fuel with
  | zero => intro tau _; rfl
  | succ fuel ih =>
    intro tau h
    have hf : jsLtO cmndf[tau]? (some threshold) = false := by
      by_cases htau : tau < cmndf.length
      · exact h tau le_rfl htau
      · rw [getElem?_of_len_le cmndf tau (le_of_not_lt htau), jsLtO_none_left]
    simp only [findBestTauAux, hf, Bool.false_eq_true, if_false]
    exact ih (tau + 1) fun s hs1 hs2 => h s (by omega) hs2

/-- The `findGlobalMinIndex` loop never updates its accumulator once no
remaining in-bounds entry compares below the current minimum value. -/
theorem findGlobalMinAux_skip (a : List ℚ) (mv : Option ℚ) (mi : ℕ) (fuel : ℕ) :
    ∀ i, (∀ s, i ≤ s → s < a.length → jsLtO a[s]? mv = false) →
      findGlobalMinAux a fuel i mv mi = mi := by
  induction fuel with
  | zero => intro i _; rfl
  | succ fuel ih =>
    intro i h
    have hf : jsLtO a[i]? mv = false := by
      by_cases hi : i < a.length
      · exact h i le_rfl hi
      · rw [getElem?_of_len_le a i (le_of_not_lt hi), jsLtO_none_left]
    simp only [findGlobalMinAux, hf, Bool.false_eq_true, if_false]
    exact ih (i + 1) fun s hs1 hs2 => h s (by omega) hs2

/-- Any index of the scan range that the threshold scan reaches (no hit
at or before it) is read by `findBestTau`. -/
theorem findBestTauAuxReads_mem (cmndf : List ℚ) (threshold : ℚ) (tauMin tauMax : ℕ)
    (fuel : ℕ) :
    ∀ tau s, tau ≤ s → s < tau + fuel →
      (∀ u, tau ≤ u → u ≤ s → jsLtO cmndf[u]? (some threshold) = false) →
      s ∈ findBestTauAuxReads cmndf threshold tauMin tauMax fuel tau := by
  induction fuel with
  | zero => intro tau s h1 h2 _; omega
  | succ fuel ih =>
    intro tau s h1 h2 h
    have hf : jsLtO cmndf[tau]? (some threshold) = false := h tau le_rfl h1
    simp only [findBestTauAuxReads, hf, Bool.false_eq_true, if_false]
    rcases Nat.eq_or_lt_of_le h1 with heq | hlt
    · exact heq ▸ List.mem_cons_self _ _
    · exact List.mem_cons_of_mem _
        (ih (tau + 1) s hlt (by omega) fun u hu1 hu2 => h u (by omega) hu2)

-- ---------------------------------------------------------------------------
-- Concrete evaluation helpers
-- ---------------------------------------------------------------------------

theorem detectPitch_eq (w : List ℚ) (sr : ℕ) (h : ¬ w.length = 0) :
    detectPitch w sr =
      (if jsLtQ (jsDiv (sr : ℚ) (refineTau (detectCMNDF w sr) (detectTau w sr))) MIN_FREQUENCY
          || jsGtQ (jsDiv (sr : ℚ) (refineTau (detectCMNDF w sr) (detectTau w sr))) MAX_FREQUENCY then
        none
       else some (jsDiv (sr : ℚ) (refineTau (detectCMNDF w sr) (detectTau w sr)),
         detectConfidence w sr)) := by
  unfold detectPitch
  rw [if_neg h]

theorem cmndf_silent3 : detectCMNDF [(0:ℚ), 0, 0] 5000 = [1, 1, 1] := by
  with_unfolding_all decide

theorem findBestTau_ones : findBestTau [(1:ℚ), 1, 1] THRESHOLD 1 185 = 1 := by
  unfold findBestTau
  rw [findBestTauAux_no_hit]
  · unfold findGlobalMinIndex
    rw [findGlobalMinAux_skip]
    intro s hs1 hs2
    have hs : s = 2 := by simp at hs2; omega
    subst hs
    with_unfolding_all decide
  · intro s hs1 hs2
    have hs : s = 1 ∨ s = 2 := by simp at hs2; omega
    rcases hs with hs | hs <;> subst hs <;> with_unfolding_all decide

theorem detectTau_silent3 : detectTau [(0:ℚ), 0, 0] 5000 = 1 := by
  unfold detectTau
  rw [cmndf_silent3, show detectTauMin 5000 = 1 from rfl,
    show detectTauMax 5000 = 185 from rfl, findBestTau_ones]

theorem cmndf_single0 : detectCMNDF [(0:ℚ)] 5000 = [0] := by
  with_unfolding_all decide

theorem detectTau_single0 : detectTau [(0:ℚ)] 5000 = 1 := by
  unfold detectTau
  rw [cmndf_single0, show detectTauMin 5000 = 1 from rfl, show detectTauMax 5000 = 185 from rfl]
  unfold findBestTau
  rw [findBestTauAux_no_hit]
  · unfold findGlobalMinIndex
    rw [findGlobalMinAux_skip]
    intro s hs1 hs2
    simp at hs2
    omega
  · intro s hs1 hs2
    simp at hs2
    omega

theorem cmndf_c9 : detectCMNDF [(1:ℚ), 1, 0] 5000 = [1, 1, 4/3] := by
  with_unfolding_all decide

theorem findBestTau_c9 : findBestTau [(1:ℚ), 1, 4/3] THRESHOLD 1 185 = 1 := by
  unfold findBestTau
  rw [findBestTauAux_no_hit]
  · unfold findGlobalMinIndex
    rw [findGlobalMinAux_skip]
    intro s hs1 hs2
    have hs : s = 2 := by simp at hs2; omega
    subst hs
    with_unfolding_all decide
  · intro s hs1 hs2
    have hs : s = 1 ∨ s = 2 := by simp at hs2; omega
    rcases hs with hs | hs <;> subst hs <;> with_unfolding_all decide

theorem detectTau_c9 : detectTau [(1:ℚ), 1, 0] 5000 = 1 := by
  unfold detectTau
  rw [cmndf_c9, show detectTauMin 5000 = 1 from rfl, show detectTauMax 5000 = 185 from rfl,
    findBestTau_c9]

-- ---------------------------------------------------------------------------
-- Claim C1
-- ---------------------------------------------------------------------------

/-- C1: the claim states that `detectPitch` returns "no pitch" (`null`)
for every all-zero frame of length ≥ 1 at every positive sample rate and
never returns a `NaN`/`Infinity` frequency.  The code violates this: on
the all-zero frame of length 3 at sample rate 5000 the CMNDF curve is
flat (`[1, 1, 1]`), the unguarded parabolic-interpolation division in
`refineTau` evaluates `0 / 0 = NaN`, `NaN` passes the frequency range
check (both comparisons are false), and `detectPitch` returns a result
whose frequency is `NaN` (with confidence 1). -/
theorem detectPitch_silence_nan_bug :
    detectPitch [(0:ℚ), 0, 0] 5000 = some (JsVal.nan, some 1) := by
  rw [detectPitch_eq _ _ (by decide), detectTau_silent3, cmndf_silent3]
  rw [show refineTau [(1:ℚ), 1, 1] 1 = JsVal.nan from by with_unfolding_all decide]
  rw [show detectConfidence [(0:ℚ), 0, 0] 5000 = some 1 from by
    unfold detectConfidence
    rw [cmndf_silent3, detectTau_silent3]
    rfl]
  rfl

-- ---------------------------------------------------------------------------
-- Claim C6
-- ---------------------------------------------------------------------------

/-- C6: the claim states that whenever `tauMin` exceeds the clamped
`tauMax` (frame too short for the frequency floor) `detectPitch` returns
"no pitch".  The code intends this (`// if computeCMNDF failed (e.g. no
valid taus), quit early`) but the guard `if (!cmndf)` never fires because
a typed array is always truthy.  On the frame `[0]` at sample rate 5000
(`tauMin = 1 > 0 =` clamped `tauMax`) the search falls through on the
all-zero degenerate curve, chooses `tau = 1`, reads confidence out of
bounds (`undefined`), and `5000 / 1 = 5000` passes the range check, so a
detection result is returned instead of `null`. -/
theorem detectPitch_degenerate_lag_bug :
    detectPitch [(0:ℚ)] 5000 = some (JsVal.num 5000, none) := by
  rw [detectPitch_eq _ _ (by decide), detectTau_single0, cmndf_single0]
  rw [show refineTau [(0:ℚ)] 1 = JsVal.num 1 from by with_unfolding_all decide]
  rw [show detectConfidence [(0:ℚ)] 5000 = none from by
    unfold detectConfidence
    rw [cmndf_single0, detectTau_single0]
    rfl]
  rw [show jsDiv ((5000:ℕ) : ℚ) (JsVal.num 1) = JsVal.num 5000 from by
    simp [jsDiv]]
  rw [show (jsLtQ (JsVal.num 5000) MIN_FREQUENCY || jsGtQ (JsVal.num 5000) MAX_FREQUENCY)
      = false from by
    simp only [jsLtQ, jsGtQ, MIN_FREQUENCY, MAX_FREQUENCY]
    norm_num]
  rfl

-- ---------------------------------------------------------------------------
-- Claim C2
-- ---------------------------------------------------------------------------

/-- C2 (counterexample): the claim states that whenever the parabolic
denominator is zero the computation falls back to the integer lag.  On
the flat curve `[1, 1, 1]` at `tau = 1` both numerator and denominator
are `0` and `refineTau` evaluates `0 / 0 = NaN` — a non-finite value, not
the integer lag `1`. -/
theorem refineTau_zero_denominator_cex :
    refineTau [(1:ℚ), 1, 1] 1 = JsVal.nan ∧ JsVal.nan ≠ JsVal.num 1 ∧
      (JsVal.nan).isFiniteNum = false := by
  with_unfolding_all decide

/-- C2 (amended): at a boundary (`tau < 1` or `tau + 1 ≥` length) the
integer lag is used; otherwise, when the denominator
`cmndf[tau−1] − 2·cmndf[tau] + cmndf[tau+1]` is nonzero, the refined lag
equals `tau + 0.5·(cmndf[tau−1] − cmndf[tau+1]) /` that denominator; when
the denominator is zero the code does NOT fall back to the integer lag
but produces a non-finite value (`NaN` or `±Infinity`). -/
theorem refineTau_characterization (cmndf : List ℚ) (tau : ℕ) :
    (tau < 1 ∨ cmndf.length ≤ tau + 1 → refineTau cmndf tau = JsVal.num tau) ∧
    (1 ≤ tau → tau + 1 < cmndf.length →
      (cmndf.getD (tau - 1) 0 - 2 * cmndf.getD tau 0 + cmndf.getD (tau + 1) 0 ≠ 0 →
        refineTau cmndf tau = JsVal.num ((tau : ℚ) +
          (cmndf.getD (tau - 1) 0 - cmndf.getD (tau + 1) 0) /
          (cmndf.getD (tau - 1) 0 - 2 * cmndf.getD tau 0 + cmndf.getD (tau + 1) 0) / 2)) ∧
      (cmndf.getD (tau - 1) 0 - 2 * cmndf.getD tau 0 + cmndf.getD (tau + 1) 0 = 0 →
        (refineTau cmndf tau).isFiniteNum = false)) := by
  refine ⟨fun h => ?_, fun h1 h2 => ⟨fun hd => ?_, fun hd => ?_⟩⟩
  · unfold refineTau
    rw [if_pos h]
  · unfold refineTau
    rw [if_neg (by omega : ¬ (tau < 1 ∨ cmndf.length ≤ tau + 1)), if_neg hd]
  · unfold refineTau
    rw [if_neg (by omega : ¬ (tau < 1 ∨ cmndf.length ≤ tau + 1)), if_pos hd]
    split
    · rfl
    · split <;> rfl

/-- Witness for C2 (amended): a concrete interpolation,
`refineTau [1, 2, 4] 1 = 1 + (1 − 4) / (1 − 2·2 + 4) / 2 = −1/2`. -/
theorem refineTau_characterization_witness :
    refineTau [(1:ℚ), 2, 4] 1 = JsVal.num (-(1/2)) := by
  have h := ((refineTau_characterization [(1:ℚ), 2, 4] 1).2 (by norm_num)
    (by norm_num)).1 (by with_unfolding_all decide)
  rw [h]
  norm_num [List.getD]

-- ---------------------------------------------------------------------------
-- Claim C7 (counterexample)
-- ---------------------------------------------------------------------------

/-- C7 (counterexample): the claim states every CMNDF read of the
threshold search stays within `0 ..` clamped `tauMax`.  On the frame
`[0, 0, 0]` at sample rate 5000 the curve has length 3 (clamped
`tauMax = 2`) yet the scan, whose bound is the unclamped
`tauMax = 185`, reads index 3 — past the end of the allocated curve. -/
theorem search_reads_out_of_bounds_cex :
    3 ∈ findBestTauReads (detectCMNDF [(0:ℚ), 0, 0] 5000) THRESHOLD
        (detectTauMin 5000) (detectTauMax 5000) ∧
      (detectCMNDF [(0:ℚ), 0, 0] 5000).length = 3 := by
  constructor
  · rw [cmndf_silent3, show detectTauMin 5000 = 1 from rfl,
      show detectTauMax 5000 = 185 from rfl]
    unfold findBestTauReads
    apply findBestTauAuxReads_mem
    · omega
    · omega
    · intro u hu1 hu2
      have hu : u = 1 ∨ u = 2 ∨ u = 3 := by omega
      rcases hu with hu | hu | hu <;> subst hu <;> with_unfolding_all decide
  · rw [cmndf_silent3]
    rfl

-- ---------------------------------------------------------------------------
-- Claim C8 (counterexample)
-- ---------------------------------------------------------------------------

/-- C8 (counterexample): the claim states the difference function equals
the overlap sum of squared differences.  On the frame `[0, 1]` at lag 1
the code computes `d(1) = 2` (the zero-lag term `r0` sums over the whole
frame, not the overlap) while the overlap squared difference is `1`. -/
theorem computeDF_not_squared_difference_cex :
    computeDF [(0:ℚ), 1] 1 = 2 ∧ sqDiffSum [(0:ℚ), 1] 1 = 1 ∧
      computeDF [(0:ℚ), 1] 1 ≠ sqDiffSum [(0:ℚ), 1] 1 := by
  with_unfolding_all decide

-- ---------------------------------------------------------------------------
-- Claim C9 (counterexample)
-- ---------------------------------------------------------------------------

/-- C9 (counterexample): the claim states that a chosen lag equal to
`tauMin` forces the fallback to the integer lag, making the frequency
`sampleRate / tauMin`.  On the frame `[1, 1, 0]` at sample rate 5000 the
chosen lag is `tauMin = 1`, but the curve is `[1, 1, 4/3]`, so the
refinement interpolates (in bounds) to `1/2`; the frequency becomes
`10000`, fails the range check, and `detectPitch` returns `null` instead
of a `5000 / 1` detection. -/
theorem chosen_tauMin_no_fallback_cex :
    detectTau [(1:ℚ), 1, 0] 5000 = detectTauMin 5000 ∧
      refineTau (detectCMNDF [(1:ℚ), 1, 0] 5000) (detectTau [(1:ℚ), 1, 0] 5000) =
        JsVal.num (1/2) ∧
      JsVal.num ((1:ℚ)/2) ≠ JsVal.num ((detectTauMin 5000 : ℕ) : ℚ) ∧
      detectPitch [(1:ℚ), 1, 0] 5000 = none := by
  refine ⟨by rw [detectTau_c9]; rfl, ?_, by with_unfolding_all decide, ?_⟩
  · rw [cmndf_c9, detectTau_c9]
    with_unfolding_all decide
  · rw [detectPitch_eq _ _ (by decide), detectTau_c9, cmndf_c9]
    rw [show refineTau [(1:ℚ), 1, 4/3] 1 = JsVal.num (1/2) from by with_unfolding_all decide]
    rw [show jsDiv ((5000:ℕ) : ℚ) (JsVal.num (1/2)) = JsVal.num 10000 from by
      norm_num [jsDiv]]
    rw [show (jsLtQ (JsVal.num 10000) MIN_FREQUENCY || jsGtQ (JsVal.num 10000) MAX_FREQUENCY)
        = true from by
      simp only [jsLtQ, jsGtQ, MIN_FREQUENCY, MAX_FREQUENCY]
      norm_num]
    rfl

-- ---------------------------------------------------------------------------
-- Claim C3
-- ---------------------------------------------------------------------------

/-- C3: the per-frame smoothing step of `detectionLoop` equals the
reference update: a detection passing the confidence gate
(`confidence < 0.15`) is appended to the history queue, the oldest entry
is dropped when the queue exceeds 3, and the output is the arithmetic
mean (`sum / length`) of the queue; "no pitch" or a gate failure clears
the queue and outputs "no pitch"; the queue never exceeds 3 entries; the
concrete sequences `100, 102, 98` (yielding 100), a fourth `110`
(yielding `(102 + 98 + 110)/3`), a gate failure, and a fresh confident
frame (1-sample average) behave as claimed. -/
theorem smoother_step_reference :
    (∀ hist f c, c < CONFIDENCE_THRESHOLD →
      ∃ q : List ℚ,
        q = (if SMOOTHING_FRAMES < (hist ++ [f]).length then (hist ++ [f]).drop 1
             else hist ++ [f]) ∧
        smootherUpdate hist (some (f, c)) = (q, some (q.sum / q.length))) ∧
    (∀ hist f c, ¬ c < CONFIDENCE_THRESHOLD → smootherUpdate hist (some (f, c)) = ([], none)) ∧
    (∀ hist, smootherUpdate hist none = ([], none)) ∧
    (∀ hist d, hist.length ≤ SMOOTHING_FRAMES →
      (smootherUpdate hist d).1.length ≤ SMOOTHING_FRAMES) ∧
    smootherUpdate [] (some (100, 0)) = ([100], some 100) ∧
    smootherUpdate [100] (some (102, 0)) = ([100, 102], some 101) ∧
    smootherUpdate [100, 102] (some (98, 0)) = ([100, 102, 98], some 100) ∧
    smootherUpdate [100, 102, 98] (some (110, 0)) = ([102, 98, 110], some (310/3)) ∧
    smootherUpdate [100, 102, 98] none = ([], none) ∧
    smootherUpdate [] (some (97, 0)) = ([97], some 97) := by
  refine ⟨?_, ?_, ?_, ?_, ?_, ?_, ?_, ?_, ?_, ?_⟩
  · intro hist f c hc
    refine ⟨_, rfl, ?_⟩
    simp only [smootherUpdate]
    rw [if_pos hc]
    have hlen : (if SMOOTHING_FRAMES < (hist ++ [f]).length then (hist ++ [f]).drop 1
        else hist ++ [f]).length ≠ 0 := by
      simp only [SMOOTHING_FRAMES]
      split
      next h =>
        rw [List.length_drop]
        simp only [List.length_append, List.length_cons, List.length_nil] at h ⊢
        omega
      next =>
        simp
    simp only [average, hlen, if_neg hlen, if_false]
  · intro hist f c hc
    simp only [smootherUpdate]
    rw [if_neg hc]
  · intro hist
    rfl
  · intro hist d hlen
    match d with
    | none => simp [smootherUpdate]
    | some (f, c) =>
      by_cases hc : c < CONFIDENCE_THRESHOLD
      · simp only [smootherUpdate]
        rw [if_pos hc]
        simp only []
        split <;> simp_all [SMOOTHING_FRAMES]
      · simp only [smootherUpdate]
        rw [if_neg hc]
        simp [SMOOTHING_FRAMES]
  · with_unfolding_all decide
  · with_unfolding_all decide
  · with_unfolding_all decide
  · with_unfolding_all decide
  · with_unfolding_all decide
  · with_unfolding_all decide

theorem smoother_step_reference_witness :
    smootherUpdate [50] (some (60, 1/10)) = ([50, 60], some 55) := by
  obtain ⟨q, hq, h⟩ := smoother_step_reference.1 [50] 60 (1/10) (by
    unfold CONFIDENCE_THRESHOLD
    norm_num)
  rw [h, hq]
  norm_num [SMOOTHING_FRAMES]

theorem cmndfFrom_getD (a : List ℚ) (n : ℕ) :
    ∀ (start : ℕ) (cum : ℚ) (j : ℕ), j < n →
      (cmndfFrom a n start cum).getD j 0 =
        (if cum + ∑ k ∈ Finset.range (j + 1), computeDF a (start + k) = 0 then 1
         else computeDF a (start + j) * ((start + j : ℕ) : ℚ) /
           (cum + ∑ k ∈ Finset.range (j + 1), computeDF a (start + k))) := by
  induction n with
  | zero => intro start cum j hj; omega
  | succ n ih =>
    intro start cum j hj
    cases j with
    | zero =>
      simp only [cmndfFrom, List.getD_cons_zero]
      rw [Finset.sum_range_one]
      simp
    | succ j =>
      simp only [cmndfFrom, List.getD_cons_succ]
      rw [ih (start + 1) (cum + computeDF a start) j (by omega)]
      have hidx : start + 1 + j = start + (j + 1) := by omega
      have hsum : cum + computeDF a start +
          (∑ k ∈ Finset.range (j + 1), computeDF a (start + 1 + k)) =
          cum + ∑ k ∈ Finset.range (j + 1 + 1), computeDF a (start + k) := by
        rw [Finset.sum_range_succ' (fun k => computeDF a (start + k)) (j + 1)]
        rw [Finset.sum_congr rfl
          (fun k _ => congrArg (computeDF a) (by omega : start + 1 + k = start + (k + 1)))]
        simp only [Nat.add_zero]
        ring
      rw [hsum, hidx]

theorem computeCMNDF_cons (a : List ℚ) (tauMin tauMax : ℕ)
    (hne : ¬ a.length = 0) (hvalid : max 1 tauMin ≤ min tauMax (a.length - 1)) :
    computeCMNDF a tauMin tauMax = 1 :: cmndfFrom a (min tauMax (a.length - 1)) 1 0 := by
  unfold computeCMNDF
  rw [if_neg hne, if_neg (by omega)]

-- ---------------------------------------------------------------------------
-- Claim C5
-- ---------------------------------------------------------------------------

/-- C5: for every non-empty frame admitting at least one valid lag
(`max(1, tauMin) <= min(tauMax, length - 1)`), the CMNDF curve has
`cmndf[0] = 1` and, for `tau` from 1 to the clamped maximum lag,
`cmndf[tau] = 1` when the running sum `d(1) + ... + d(tau)` is zero
(silent input) and `cmndf[tau] = d(tau) * tau /` that running sum
otherwise. -/
theorem computeCMNDF_values (a : List ℚ) (tauMin tauMax : ℕ)
    (hne : ¬ a.length = 0) (hvalid : max 1 tauMin ≤ min tauMax (a.length - 1)) :
    (computeCMNDF a tauMin tauMax).getD 0 0 = 1 ∧
    ∀ tau, 1 ≤ tau → tau ≤ min tauMax (a.length - 1) →
      (computeCMNDF a tauMin tauMax).getD tau 0 =
        (if ∑ k ∈ Finset.range tau, computeDF a (k + 1) = 0 then 1
         else computeDF a tau * ((tau : ℕ) : ℚ) / ∑ k ∈ Finset.range tau, computeDF a (k + 1)) := by
  constructor
  · rw [computeCMNDF_cons a tauMin tauMax hne hvalid]
    rfl
  · intro tau h1 h2
    rw [computeCMNDF_cons a tauMin tauMax hne hvalid]
    rcases Nat.exists_eq_add_of_le h1 with ⟨j, hj⟩
    subst hj
    rw [show 1 + j = j + 1 from by omega, List.getD_cons_succ]
    rw [cmndfFrom_getD a (min tauMax (a.length - 1)) 1 0 j (by omega)]
    have harg : ∀ k, (1 : ℕ) + k = k + 1 := fun k => by omega
    rw [Finset.sum_congr rfl (fun k _ => congrArg (computeDF a) (harg k))]
    rw [harg j]
    simp only [zero_add]

/-- Witness for C5 at the frame `[1, 1, 0]` with `tauMin = 1`,
`tauMax = 2`. -/
theorem computeCMNDF_values_witness :
    (computeCMNDF [(1:ℚ), 1, 0] 1 2).getD 0 0 = 1 ∧
    (computeCMNDF [(1:ℚ), 1, 0] 1 2).getD 2 0 =
      (if ∑ k ∈ Finset.range 2, computeDF [(1:ℚ), 1, 0] (k + 1) = 0 then 1
       else computeDF [(1:ℚ), 1, 0] 2 * ((2:ℕ) : ℚ) /
         ∑ k ∈ Finset.range 2, computeDF [(1:ℚ), 1, 0] (k + 1)) := by
  have h := computeCMNDF_values [(1:ℚ), 1, 0] 1 2 (by decide) (by decide)
  exact ⟨h.1, h.2 2 (by norm_num) (by decide)⟩

theorem getD_drop (l : List ℚ) (m n : ℕ) (h : m + n < l.length) :
    (l.drop m).getD n 0 = l.getD (m + n) 0 := by
  rw [List.getD_eq_getElem l 0 h,
    List.getD_eq_getElem (l.drop m) 0 (by simp only [List.length_drop]; omega)]
  exact List.getElem_drop l

-- ---------------------------------------------------------------------------
-- Claim C8 (amended)
-- ---------------------------------------------------------------------------

/-- C8 (amended): for every frame and lag `tau` in
`1 .. frame.length - 1`, the difference function equals
`ACF(frame, 0) + ACF(frame[tau:], 0) - 2*ACF(frame, tau)`, and this value
equals the overlap sum of squared differences PLUS the energy of the
final `tau` samples (the zero-lag term sums over the whole frame, so the
pure squared-difference identity of the claim fails by that tail term). -/
theorem computeDF_identity (a : List ℚ) (tau : ℕ) (h1 : 1 ≤ tau) (h2 : tau ≤ a.length - 1) :
    computeDF a tau =
      computeACF a 0 + computeACF (a.drop tau) 0 - 2 * computeACF a tau ∧
    computeDF a tau = sqDiffSum a tau + tailEnergy a tau := by
  have hlt : tau < a.length := by omega
  refine ⟨rfl, ?_⟩
  have hACF0 : computeACF a 0 =
      ∑ x ∈ Finset.range a.length, a.getD x 0 * a.getD x 0 := by
    unfold computeACF
    rw [if_neg (by omega)]
    simp
  have hACFdrop : computeACF (a.drop tau) 0 =
      ∑ x ∈ Finset.range (a.length - tau), a.getD (x + tau) 0 * a.getD (x + tau) 0 := by
    unfold computeACF
    rw [if_neg (by simp only [List.length_drop]; omega)]
    simp only [Nat.sub_zero, List.length_drop]
    refine Finset.sum_congr rfl fun x hx => ?_
    have hx' : x < a.length - tau := Finset.mem_range.mp hx
    simp only [Nat.add_zero]
    rw [getD_drop a tau x (by omega), show tau + x = x + tau from by omega]
  have hACFtau : computeACF a tau =
      ∑ x ∈ Finset.range (a.length - tau), a.getD x 0 * a.getD (x + tau) 0 := by
    unfold computeACF
    rw [if_neg (by omega)]
  have hsplit : ∑ x ∈ Finset.range a.length, a.getD x 0 * a.getD x 0
      = (∑ x ∈ Finset.range (a.length - tau), a.getD x 0 * a.getD x 0)
        + ∑ i ∈ Finset.range tau, a.getD (a.length - tau + i) 0 * a.getD (a.length - tau + i) 0 := by
    have hc := Finset.sum_Ico_consecutive (fun x => a.getD x 0 * a.getD x 0)
      (Nat.zero_le (a.length - tau)) (by omega : a.length - tau ≤ a.length)
    rw [← Finset.range_eq_Ico] at hc
    rw [← hc]
    congr 1
    rw [Finset.sum_Ico_eq_sum_range]
    rw [show a.length - (a.length - tau) = tau from by omega]
  have hexp : sqDiffSum a tau =
      (∑ x ∈ Finset.range (a.length - tau), a.getD x 0 * a.getD x 0)
        - 2 * (∑ x ∈ Finset.range (a.length - tau), a.getD x 0 * a.getD (x + tau) 0)
        + ∑ x ∈ Finset.range (a.length - tau), a.getD (x + tau) 0 * a.getD (x + tau) 0 := by
    unfold sqDiffSum
    rw [Finset.sum_congr rfl (fun x _ => by
      ring : ∀ x ∈ Finset.range (a.length - tau),
        (a.getD x 0 - a.getD (x + tau) 0) ^ 2 =
          a.getD x 0 * a.getD x 0 - 2 * (a.getD x 0 * a.getD (x + tau) 0)
            + a.getD (x + tau) 0 * a.getD (x + tau) 0)]
    rw [Finset.sum_add_distrib, Finset.sum_sub_distrib, ← Finset.mul_sum]
  have htail : tailEnergy a tau =
      ∑ i ∈ Finset.range tau, a.getD (a.length - tau + i) 0 * a.getD (a.length - tau + i) 0 := by
    unfold tailEnergy
    exact Finset.sum_congr rfl fun i _ => pow_two _
  unfold computeDF
  rw [hACF0, hACFdrop, hACFtau, hsplit, hexp, htail]
  ring

/-- Witness for C8 (amended) at the frame `[1, 2, 3]`, lag 1. -/
theorem computeDF_identity_witness :
    computeDF [(1:ℚ), 2, 3] 1 =
      computeACF [(1:ℚ), 2, 3] 0 + computeACF ([(1:ℚ), 2, 3].drop 1) 0
        - 2 * computeACF [(1:ℚ), 2, 3] 1 ∧
    computeDF [(1:ℚ), 2, 3] 1 = sqDiffSum [(1:ℚ), 2, 3] 1 + tailEnergy [(1:ℚ), 2, 3] 1 :=
  computeDF_identity [(1:ℚ), 2, 3] 1 (by norm_num) (by norm_num)

theorem jsLtO_inbounds (l : List ℚ) (i j : ℕ) (hi : i < l.length) (hj : j < l.length) :
    jsLtO l[i]? l[j]? = decide (l.getD i 0 < l.getD j 0) := by
  rw [getElem?_eq_some_getD l i hi, getElem?_eq_some_getD l j hj]
  rfl

theorem jsLtO_some_right (l : List ℚ) (i : ℕ) (q : ℚ) (hi : i < l.length) :
    jsLtO l[i]? (some q) = decide (l.getD i 0 < q) := by
  rw [getElem?_eq_some_getD l i hi]
  rfl

theorem valleyDescent_spec (cmndf : List ℚ) (tauMax : ℕ) (fuel : ℕ) :
    ∀ b, tauMax ≤ fuel + b →
      b ≤ valleyDescent cmndf tauMax fuel b ∧
      (∀ k, b ≤ k → k < valleyDescent cmndf tauMax fuel b →
        k + 1 < tauMax ∧ jsLtO cmndf[k + 1]? cmndf[k]? = true) ∧
      (valleyDescent cmndf tauMax fuel b + 1 < tauMax →
        jsLtO cmndf[valleyDescent cmndf tauMax fuel b + 1]?
          cmndf[valleyDescent cmndf tauMax fuel b]? = false) := by
  induction fuel with
  | zero =>
    intro b hb
    refine ⟨le_rfl, fun k hk1 hk2 => by simp only [valleyDescent] at hk2; omega, ?_⟩
    simp only [valleyDescent]
    omega
  | succ fuel ih =>
    intro b hb
    by_cases hguard : b + 1 < tauMax
    · cases hjs : jsLtO cmndf[b + 1]? cmndf[b]? with
      | true =>
        have hstep : valleyDescent cmndf tauMax (fuel + 1) b =
            valleyDescent cmndf tauMax fuel (b + 1) := by
          simp only [valleyDescent, hguard, hjs, if_true]
        obtain ⟨ih1, ih2, ih3⟩ := ih (b + 1) (by omega)
        rw [hstep]
        refine ⟨by omega, fun k hk1 hk2 => ?_, ih3⟩
        rcases Nat.eq_or_lt_of_le hk1 with hk | hk
        · exact hk ▸ ⟨hguard, hjs⟩
        · exact ih2 k hk hk2
      | false =>
        have hstep : valleyDescent cmndf tauMax (fuel + 1) b = b := by
          simp only [valleyDescent, hguard, hjs]
          simp
        rw [hstep]
        exact ⟨le_rfl, fun k hk1 hk2 => by omega, fun _ => hjs⟩
    · have hstep : valleyDescent cmndf tauMax (fuel + 1) b = b := by
        simp only [valleyDescent, hguard]
        simp
      rw [hstep]
      exact ⟨le_rfl, fun k hk1 hk2 => by omega, fun h => absurd h hguard⟩

theorem valleyDescent_lt (cmndf : List ℚ) (tauMax fuel b : ℕ)
    (hb : b < tauMax) (hfuel : tauMax ≤ fuel + b) :
    valleyDescent cmndf tauMax fuel b < tauMax := by
  obtain ⟨h1, h2, _⟩ := valleyDescent_spec cmndf tauMax fuel b hfuel
  rcases Nat.eq_or_lt_of_le h1 with h | h
  · omega
  · have := (h2 (valleyDescent cmndf tauMax fuel b - 1) (by omega) (by omega)).1
    omega

theorem valleyDescent_le (cmndf : List ℚ) (tauMax : ℕ) (fuel : ℕ) :
    ∀ b v, cmndf[b]? = some v →
      ∃ w, cmndf[valleyDescent cmndf tauMax fuel b]? = some w ∧ w ≤ v := by
  induction fuel with
  | zero => intro b v hv; exact ⟨v, hv, le_rfl⟩
  | succ fuel ih =>
    intro b v hv
    by_cases hguard : b + 1 < tauMax
    · cases hjs : jsLtO cmndf[b + 1]? cmndf[b]? with
      | true =>
        have hstep : valleyDescent cmndf tauMax (fuel + 1) b =
            valleyDescent cmndf tauMax fuel (b + 1) := by
          simp only [valleyDescent, hguard, hjs, if_true]
        cases hnext : cmndf[b + 1]? with
        | none => rw [hnext, jsLtO_none_left] at hjs; exact absurd hjs (by simp)
        | some v' =>
          have hlt : v' < v := by
            rw [hnext, hv, jsLtO_some_some] at hjs
            exact of_decide_eq_true hjs
          obtain ⟨w, hw1, hw2⟩ := ih (b + 1) v' hnext
          rw [hstep]
          exact ⟨w, hw1, hw2.trans hlt.le⟩
      | false =>
        have hstep : valleyDescent cmndf tauMax (fuel + 1) b = b := by
          simp only [valleyDescent, hguard, hjs]
          simp
        rw [hstep]
        exact ⟨v, hv, le_rfl⟩
    · have hstep : valleyDescent cmndf tauMax (fuel + 1) b = b := by
        simp only [valleyDescent, hguard]
        simp
      rw [hstep]
      exact ⟨v, hv, le_rfl⟩
theorem findBestTauAux_hit (cmndf : List ℚ) (threshold : ℚ) (tauMin tauMax : ℕ)
    (fuel : ℕ) :
    ∀ tau t0, fuel + tau = tauMax → tau ≤ t0 → t0 < tauMax →
      (∀ s, tau ≤ s → s < t0 → jsLtO cmndf[s]? (some threshold) = false) →
      jsLtO cmndf[t0]? (some threshold) = true →
      findBestTauAux cmndf threshold tauMin tauMax fuel tau =
        valleyDescent cmndf tauMax tauMax t0 := by
  induction fuel with
  | zero => intro tau t0 hf h1 h2 _ _; omega
  | succ fuel ih =>
    intro tau t0 hf h1 h2 hmiss hhit
    rcases Nat.eq_or_lt_of_le h1 with heq | hlt
    · subst heq
      simp only [findBestTauAux, hhit, if_true]
    · have hmiss0 : jsLtO cmndf[tau]? (some threshold) = false := hmiss tau le_rfl hlt
      simp only [findBestTauAux, hmiss0, Bool.false_eq_true, if_false]
      exact ih (tau + 1) t0 (by omega) hlt h2 (fun s hs1 hs2 => hmiss s (by omega) hs2) hhit

theorem findBestTauAux_no_hit_range (cmndf : List ℚ) (threshold : ℚ)
    (tauMin tauMax : ℕ) (fuel : ℕ) :
    ∀ tau, (∀ s, tau ≤ s → s < tau + fuel → jsLtO cmndf[s]? (some threshold) = false) →
      findBestTauAux cmndf threshold tauMin tauMax fuel tau =
        findGlobalMinIndex cmndf tauMin tauMax := by
  induction fuel with
  | zero => intro tau _; rfl
  | succ fuel ih =>
    intro tau h
    have h0 : jsLtO cmndf[tau]? (some threshold) = false := h tau le_rfl (by omega)
    simp only [findBestTauAux, h0, Bool.false_eq_true, if_false]
    exact ih (tau + 1) fun s hs1 hs2 => h s (by omega) (by omega)

theorem findBestTauAux_below (cmndf : List ℚ) (threshold : ℚ) (tauMin tauMax : ℕ)
    (fuel : ℕ) :
    ∀ tau t, tau ≤ t → t < tau + fuel → jsLtO cmndf[t]? (some threshold) = true →
      ∃ v, cmndf[findBestTauAux cmndf threshold tauMin tauMax fuel tau]? = some v ∧
        v < threshold := by
  induction fuel with
  | zero => intro tau t h1 h2 _; omega
  | succ fuel ih =>
    intro tau t h1 h2 hhit
    cases hjs : jsLtO cmndf[tau]? (some threshold) with
    | true =>
      simp only [findBestTauAux, hjs, if_true]
      cases hread : cmndf[tau]? with
      | none => rw [hread, jsLtO_none_left] at hjs; exact absurd hjs (by simp)
      | some v =>
        have hv : v < threshold := by
          rw [hread, jsLtO_some_some] at hjs
          exact of_decide_eq_true hjs
        obtain ⟨w, hw1, hw2⟩ := valleyDescent_le cmndf tauMax tauMax tau v hread
        exact ⟨w, hw1, hw2.trans_lt hv⟩
    | false =>
      simp only [findBestTauAux, hjs, Bool.false_eq_true, if_false]
      have ht : tau < t := by
        rcases Nat.eq_or_lt_of_le h1 with heq | hlt
        · rw [heq] at hjs; rw [hjs] at hhit; exact absurd hhit (by simp)
        · exact hlt
      exact ih (tau + 1) t ht (by omega) hhit

theorem findGlobalMinAux_spec (a : List ℚ) (lo : ℕ) (fuel : ℕ) :
    ∀ i mIdx, lo ≤ mIdx → mIdx < i → i + fuel ≤ a.length →
      (∀ k, lo ≤ k → k < i → a.getD mIdx 0 ≤ a.getD k 0) →
      (∀ k, lo ≤ k → k < mIdx → a.getD mIdx 0 < a.getD k 0) →
      firstArgminOn a lo (i + fuel) (findGlobalMinAux a fuel i (some (a.getD mIdx 0)) mIdx) := by
  induction fuel with
  | zero =>
    intro i mIdx h1 h2 h3 hmin hstrict
    exact ⟨h1, by simpa [findGlobalMinAux] using h2, by simpa [findGlobalMinAux] using hmin,
      by simpa [findGlobalMinAux] using hstrict⟩
  | succ fuel ih =>
    intro i mIdx h1 h2 h3 hmin hstrict
    have hilen : i < a.length := by omega
    have hread : a[i]? = some (a.getD i 0) := getElem?_eq_some_getD a i hilen
    by_cases hcmp : a.getD i 0 < a.getD mIdx 0
    · have hstep : findGlobalMinAux a (fuel + 1) i (some (a.getD mIdx 0)) mIdx =
          findGlobalMinAux a fuel (i + 1) (some (a.getD i 0)) i := by
        simp only [findGlobalMinAux, hread, jsLtO_some_some, decide_eq_true hcmp, if_true]
      rw [show i + (fuel + 1) = (i + 1) + fuel from by omega, hstep]
      exact ih (i + 1) i (by omega) (by omega) (by omega)
        (fun k hk1 hk2 => by
          rcases Nat.lt_succ_iff_lt_or_eq.mp hk2 with hk | hk
          · exact (hcmp.trans_le (hmin k hk1 hk)).le
          · exact hk ▸ le_rfl)
        (fun k hk1 hk2 => hcmp.trans_le (hmin k hk1 hk2))
    · have hstep : findGlobalMinAux a (fuel + 1) i (some (a.getD mIdx 0)) mIdx =
          findGlobalMinAux a fuel (i + 1) (some (a.getD mIdx 0)) mIdx := by
        simp only [findGlobalMinAux, hread, jsLtO_some_some, decide_eq_false hcmp,
          Bool.false_eq_true, if_false]
      rw [show i + (fuel + 1) = (i + 1) + fuel from by omega, hstep]
      exact ih (i + 1) mIdx h1 (by omega) (by omega)
        (fun k hk1 hk2 => by
          rcases Nat.lt_succ_iff_lt_or_eq.mp hk2 with hk | hk
          · exact hmin k hk1 hk
          · exact hk ▸ le_of_not_lt hcmp)
        hstrict

theorem findGlobalMinIndex_spec (a : List ℚ) (start endIdx : ℕ)
    (h1 : start < endIdx) (h2 : endIdx ≤ a.length) :
    firstArgminOn a start endIdx (findGlobalMinIndex a start endIdx) := by
  unfold findGlobalMinIndex
  rw [getElem?_eq_some_getD a start (by omega)]
  have h := findGlobalMinAux_spec a start (endIdx - (start + 1)) (start + 1) start
    le_rfl (by omega) (by omega)
    (fun k hk1 hk2 => by
      have hk : k = start := by omega
      exact hk ▸ le_rfl)
    (fun k hk1 hk2 => by omega)
  rwa [show start + 1 + (endIdx - (start + 1)) = endIdx from by omega] at h
-- ---------------------------------------------------------------------------
-- Claim C4
-- ---------------------------------------------------------------------------

/-- C4: for every CMNDF curve and lag bounds (a non-empty search range
within the curve), the lag chosen by the threshold search is the bottom
of the strictly decreasing run starting at the first `tau` in
`[tauMin, tauMax)` with `cmndf[tau] < 0.1`, or, when no value in that
range is below the threshold, the (first) index of the global minimum of
the curve over the same range. -/
theorem findBestTau_spec (cmndf : List ℚ) (tauMin tauMax : ℕ)
    (hrange : tauMin < tauMax) (hlen : tauMax ≤ cmndf.length) :
    (∀ t0, tauMin ≤ t0 → t0 < tauMax → cmndf.getD t0 0 < THRESHOLD →
      (∀ s ∈ Finset.Ico tauMin t0, ¬ cmndf.getD s 0 < THRESHOLD) →
      valleyBottomAt cmndf tauMax t0 (findBestTau cmndf THRESHOLD tauMin tauMax)) ∧
    ((∀ t ∈ Finset.Ico tauMin tauMax, ¬ cmndf.getD t 0 < THRESHOLD) →
      firstArgminOn cmndf tauMin tauMax (findBestTau cmndf THRESHOLD tauMin tauMax)) := by
  constructor
  · intro t0 ht1 ht2 ht3 ht4
    unfold findBestTau
    rw [findBestTauAux_hit cmndf THRESHOLD tauMin tauMax (tauMax - tauMin) tauMin t0
      (by omega) ht1 ht2
      (fun s hs1 hs2 => by
        rw [jsLtO_some_right cmndf s THRESHOLD (by omega)]
        exact decide_eq_false (ht4 s (Finset.mem_Ico.mpr ⟨hs1, hs2⟩)))
      (by
        rw [jsLtO_some_right cmndf t0 THRESHOLD (by omega)]
        exact decide_eq_true ht3)]
    obtain ⟨hb, hsteps, hstop⟩ := valleyDescent_spec cmndf tauMax tauMax t0 (by omega)
    have hrlt : valleyDescent cmndf tauMax tauMax t0 < tauMax :=
      valleyDescent_lt cmndf tauMax tauMax t0 ht2 (by omega)
    refine ⟨hb, hrlt, fun k hk1 hk2 => ?_, fun hr => ?_⟩
    · obtain ⟨hk3, hk4⟩ := hsteps k hk1 hk2
      refine ⟨hk3, ?_⟩
      rw [jsLtO_inbounds cmndf (k + 1) k (by omega) (by omega)] at hk4
      exact of_decide_eq_true hk4
    · have hs := hstop hr
      rw [jsLtO_inbounds cmndf _ _ (by omega) (by omega)] at hs
      exact of_decide_eq_false hs
  · intro hnone
    unfold findBestTau
    rw [findBestTauAux_no_hit_range cmndf THRESHOLD tauMin tauMax (tauMax - tauMin) tauMin
      (fun s hs1 hs2 => by
        rw [jsLtO_some_right cmndf s THRESHOLD (by omega)]
        exact decide_eq_false (hnone s (Finset.mem_Ico.mpr ⟨hs1, by omega⟩)))]
    exact findGlobalMinIndex_spec cmndf tauMin tauMax hrange hlen

/-- Witness for C4: a threshold hit at index 2 of
`[1, 1, 1/20, 1/25, 1/2]` descends to the valley bottom, and the
fallback on `[1, 1, 4/3]` picks the first global minimum. -/
theorem findBestTau_spec_witness :
    valleyBottomAt [(1:ℚ), 1, 1/20, 1/25, 1/2] 5 2
      (findBestTau [(1:ℚ), 1, 1/20, 1/25, 1/2] THRESHOLD 1 5) ∧
    firstArgminOn [(1:ℚ), 1, 4/3] 1 3 (findBestTau [(1:ℚ), 1, 4/3] THRESHOLD 1 3) := by
  constructor
  · exact (findBestTau_spec [(1:ℚ), 1, 1/20, 1/25, 1/2] 1 5 (by norm_num) (by norm_num)).1
      2 (by norm_num) (by norm_num) (by with_unfolding_all decide)
      (by with_unfolding_all decide)
  · exact (findBestTau_spec [(1:ℚ), 1, 4/3] 1 3 (by norm_num) (by norm_num)).2
      (by with_unfolding_all decide)

-- ---------------------------------------------------------------------------
-- Claim C10
-- ---------------------------------------------------------------------------

/-- C10: whenever some CMNDF value at a lag in `[tauMin, tauMax)` (within
the curve) lies below `THRESHOLD = 0.1`, the confidence `detectPitch`
computes — the CMNDF value at the chosen lag, before refinement — is
itself below `0.1`: the valley descent only moves to strictly smaller
values, so the chosen value never exceeds the first crossing. -/
theorem confidence_below_threshold (w : List ℚ) (sr : ℕ) (t : ℕ)
    (h1 : detectTauMin sr ≤ t) (h2 : t < detectTauMax sr)
    (h3 : t < (detectCMNDF w sr).length)
    (h4 : (detectCMNDF w sr).getD t 0 < THRESHOLD) :
    ∃ v, detectConfidence w sr = some v ∧ v < THRESHOLD := by
  unfold detectConfidence detectTau findBestTau
  exact findBestTauAux_below (detectCMNDF w sr) THRESHOLD (detectTauMin sr) (detectTauMax sr)
    (detectTauMax sr - detectTauMin sr) (detectTauMin sr) t h1 (by omega)
    (by rw [jsLtO_some_right _ _ _ h3]; exact decide_eq_true h4)

set_option maxRecDepth 2000 in
/-- Witness for C10: a near-periodic 22-sample frame at sample rate 100
whose CMNDF dips to `2/21 < 0.1` at lag 2. -/
theorem confidence_below_threshold_witness :
    ∃ v, detectConfidence [(0:ℚ), 1, 0, 1, 0, 1, 0, 1, 0, 1, 0, 1, 0, 1, 0, 1, 0, 1, 0, 1, 0, 0]
        100 = some v ∧ v < THRESHOLD :=
  confidence_below_threshold _ 100 2 (by decide) (by decide)
    (by with_unfolding_all decide) (by with_unfolding_all decide)

theorem cmndfFrom_length (a : List ℚ) (n : ℕ) :
    ∀ start cum, (cmndfFrom a n start cum).length = n := by
  induction n with
  | zero => intro start cum; rfl
  | succ n ih =>
    intro start cum
    simp only [cmndfFrom, List.length_cons, ih]

theorem computeCMNDF_length (a : List ℚ) (tauMin tauMax : ℕ) (h : ¬ a.length = 0) :
    (computeCMNDF a tauMin tauMax).length = min tauMax (a.length - 1) + 1 := by
  unfold computeCMNDF
  rw [if_neg h]
  dsimp only
  split
  · rw [List.length_replicate]
  · rw [List.length_cons, cmndfFrom_length]

theorem valleyDescentReads_lt (cmndf : List ℚ) (tauMax : ℕ) (fuel : ℕ) :
    ∀ b i, i ∈ valleyDescentReads cmndf tauMax fuel b → i < tauMax := by
  induction fuel with
  | zero => intro b i hi; simp [valleyDescentReads] at hi
  | succ fuel ih =>
    intro b i hi
    simp only [valleyDescentReads] at hi
    split at hi
    · rcases List.mem_cons.mp hi with hi | hi
      · omega
      rcases List.mem_cons.mp hi with hi | hi
      · omega
      · split at hi
        · exact ih (b + 1) i hi
        · simp at hi
    · simp at hi

theorem findGlobalMinReads_mem (lo hi i : ℕ) (h : i ∈ findGlobalMinReads lo hi) :
    i = lo ∨ (lo + 1 ≤ i ∧ i < hi) := by
  unfold findGlobalMinReads at h
  rcases List.mem_cons.mp h with h | h
  · exact Or.inl h
  · right
    have := List.mem_range'_1.mp h
    omega

theorem findBestTauAuxReads_lt (cmndf : List ℚ) (threshold : ℚ) (tauMin tauMax : ℕ)
    (fuel : ℕ) :
    ∀ tau, fuel + tau ≤ tauMax →
      ∀ i ∈ findBestTauAuxReads cmndf threshold tauMin tauMax fuel tau,
        i < tauMax ∨ i = tauMin := by
  induction fuel with
  | zero =>
    intro tau _ i hi
    rcases findGlobalMinReads_mem tauMin tauMax i hi with h | h
    · exact Or.inr h
    · exact Or.inl h.2
  | succ fuel ih =>
    intro tau htau i hi
    simp only [findBestTauAuxReads] at hi
    split at hi
    · rcases List.mem_cons.mp hi with hi | hi
      · omega
      · exact Or.inl (valleyDescentReads_lt cmndf tauMax tauMax tau i hi)
    · rcases List.mem_cons.mp hi with hi | hi
      · omega
      · exact ih (tau + 1) (by omega) i hi

-- ---------------------------------------------------------------------------
-- Claim C7 (amended)
-- ---------------------------------------------------------------------------

/-- C7 (amended): `tauMin = floor(sampleRate/5000)`,
`tauMax = floor(sampleRate/27)`, and the allocated CMNDF curve covers
indices `0 .. min(tauMax, frame.length - 1)`.  Whenever
`tauMax <= frame.length - 1` (no clamping), every CMNDF read performed by
the threshold search and the global-minimum fallback is within the bounds
of the allocated curve.  (When the frame is shorter the scan reads past
the curve — see the counterexample — such reads return `undefined` in
JavaScript, never a memory fault.) -/
theorem lag_range_and_reads_inbounds (w : List ℚ) (sr : ℕ) (hw : ¬ w.length = 0) :
    detectTauMin sr = sr / 5000 ∧ detectTauMax sr = sr / 27 ∧
    (detectCMNDF w sr).length = min (detectTauMax sr) (w.length - 1) + 1 ∧
    (detectTauMax sr ≤ w.length - 1 →
      ∀ i ∈ findBestTauReads (detectCMNDF w sr) THRESHOLD (detectTauMin sr) (detectTauMax sr),
        i < (detectCMNDF w sr).length) := by
  refine ⟨rfl, rfl, computeCMNDF_length w _ _ hw, fun hclamp i hi => ?_⟩
  have hlen : (detectCMNDF w sr).length = detectTauMax sr + 1 := by
    unfold detectCMNDF
    rw [computeCMNDF_length w _ _ hw]
    omega
  have hminmax : detectTauMin sr ≤ detectTauMax sr :=
    Nat.div_le_div_left (by norm_num) (by norm_num)
  rcases findBestTauAuxReads_lt (detectCMNDF w sr) THRESHOLD (detectTauMin sr)
    (detectTauMax sr) (detectTauMax sr - detectTauMin sr) (detectTauMin sr) (by omega) i hi
    with h | h
  · omega
  · omega

/-- Witness for C7 (amended) on a 4-sample frame at sample rate 54
(`tauMin = 0`, `tauMax = 2`, no clamping). -/
theorem lag_range_and_reads_inbounds_witness :
    detectTauMin 54 = 54 / 5000 ∧ detectTauMax 54 = 54 / 27 ∧
    (detectCMNDF [(0:ℚ), 0, 0, 0] 54).length =
      min (detectTauMax 54) ([(0:ℚ), 0, 0, 0].length - 1) + 1 ∧
    ∀ i ∈ findBestTauReads (detectCMNDF [(0:ℚ), 0, 0, 0] 54) THRESHOLD
        (detectTauMin 54) (detectTauMax 54),
      i < (detectCMNDF [(0:ℚ), 0, 0, 0] 54).length := by
  have h := lag_range_and_reads_inbounds [(0:ℚ), 0, 0, 0] 54 (by decide)
  exact ⟨h.1, h.2.1, h.2.2.1, h.2.2.2 (by decide)⟩

-- ---------------------------------------------------------------------------
-- Claim C9 (amended)
-- ---------------------------------------------------------------------------

/-- C9 (amended): whenever the lag chosen by the search equals `tauMin`,
the refinement step reads no CMNDF index out of bounds; it falls back to
the unrefined integer lag exactly when `tauMin < 1` or
`tauMin + 1 >=` the curve length, and then the computed frequency is
`sampleRate / tauMin` (for `tauMin >= 1`); otherwise — contrary to the
original claim — it parabolically interpolates using the in-bounds
neighbours `tauMin - 1`, `tauMin`, `tauMin + 1`. -/
theorem refine_at_tauMin_characterization (w : List ℚ) (sr : ℕ)
    (hchosen : detectTau w sr = detectTauMin sr) :
    (∀ i ∈ refineTauReads (detectCMNDF w sr) (detectTau w sr),
      i < (detectCMNDF w sr).length) ∧
    (detectTauMin sr < 1 ∨ (detectCMNDF w sr).length ≤ detectTauMin sr + 1 →
      refineTau (detectCMNDF w sr) (detectTau w sr) = JsVal.num (detectTauMin sr) ∧
      (0 < detectTauMin sr →
        jsDiv (sr : ℚ) (refineTau (detectCMNDF w sr) (detectTau w sr)) =
          JsVal.num ((sr : ℚ) / (detectTauMin sr : ℚ)))) := by
  constructor
  · intro i hi
    unfold refineTauReads at hi
    split at hi
    · simp at hi
    · next hcond =>
      push_neg at hcond
      simp only [List.mem_cons, List.not_mem_nil, or_false] at hi
      rcases hi with hi | hi | hi | hi | hi <;> omega
  · intro hbound
    rw [hchosen]
    have hfall : refineTau (detectCMNDF w sr) (detectTauMin sr) =
        JsVal.num (detectTauMin sr) := by
      unfold refineTau
      rw [if_pos hbound]
    refine ⟨hfall, fun hpos => ?_⟩
    rw [hfall]
    have hne : ((detectTauMin sr : ℕ) : ℚ) ≠ 0 := by
      exact_mod_cast Nat.pos_iff_ne_zero.mp hpos
    simp [jsDiv, hne]

/-- Witness for C9 (amended): on the frame `[0]` at sample rate 5000 the
chosen lag is `tauMin = 1`, the curve has length 1, so refinement falls
back to the integer lag and the frequency is `5000 / 1`. -/
theorem refine_at_tauMin_characterization_witness :
    (∀ i ∈ refineTauReads (detectCMNDF [(0:ℚ)] 5000) (detectTau [(0:ℚ)] 5000),
      i < (detectCMNDF [(0:ℚ)] 5000).length) ∧
    refineTau (detectCMNDF [(0:ℚ)] 5000) (detectTau [(0:ℚ)] 5000) =
      JsVal.num (detectTauMin 5000) ∧
    jsDiv ((5000:ℕ) : ℚ) (refineTau (detectCMNDF [(0:ℚ)] 5000) (detectTau [(0:ℚ)] 5000)) =
      JsVal.num (((5000:ℕ) : ℚ) / ((detectTauMin 5000 : ℕ) : ℚ)) := by
  have h := refine_at_tauMin_characterization [(0:ℚ)] 5000 (by
    rw [detectTau_single0]
    rfl)
  have h2 := h.2 (by
    rw [cmndf_single0]
    right
    decide)
  exact ⟨h.1, h2.1, h2.2 (by decide)⟩

end JustTuner